import Mathlib

/-! # Verification of the clickfast conversion-log core

A shallow embedding of `src/csv_handler.py` (the `R2Storage`/`CSVHandler`
classes) together with the time normalization used by `add_conversion`.
Python strings are modelled as lists of Unicode scalar values, and the
string operations the source uses (`strip`, `split`, `join`, `replace`,
`startswith`, `endswith`, `sorted`) are given their Python semantics.
Blob-store interaction is modelled by passing the fetched content in and
returning the written content out. -/

namespace ClickFast

set_option maxRecDepth 100000

/-- A Python string: its sequence of Unicode scalar values. -/
abbrev PyStr := List Char

/-- Shorthand turning a Lean string literal into a `PyStr`. -/
def pys (s : String) : PyStr := s.data

/-- The characters removed by Python's default `str.strip()`: exactly the
code points for which `str.isspace()` holds. -/
def isPySpace (c : Char) : Bool :=
  c = ' ' || c = '\t' || c = '\n' || c = '\r' || c = '\x0b' || c = '\x0c'
    || c = '\x1c' || c = '\x1d' || c = '\x1e' || c = '\x1f' || c = '\x85'
    || c = '\xa0' || c = '\u1680'
    || (('\u2000' : Char) ≤ c && c ≤ '\u200A') || c = '\u2028' || c = '\u2029'
    || c = '\u202F' || c = '\u205F' || c = '\u3000'

/-- Python `str.lstrip()`. -/
def pyStripLeft (s : PyStr) : PyStr := s.dropWhile isPySpace

/-- Python `str.rstrip()`. -/
def pyStripRight (s : PyStr) : PyStr := (pyStripLeft s.reverse).reverse

/-- Python `str.strip()`. -/
def pyStrip (s : PyStr) : PyStr := pyStripRight (pyStripLeft s)

/-- Python `str.split(sep)` for a one-character separator `sep`. -/
def pySplit (c : Char) (s : PyStr) : List PyStr :=
  match s with
  | [] => [[]]
  | x :: xs =>
    match pySplit c xs with
    | [] => [[]]
    | h :: t => if x = c then [] :: h :: t else (x :: h) :: t

/-- Python `sep.flatten(parts)` for a one-character separator `sep`. -/
def pyJoin (c : Char) : List PyStr → PyStr
  | [] => []
  | [x] => x
  | x :: y :: xs => x ++ c :: pyJoin c (y :: xs)

/-- Helper for `pyReplace`, structurally recursive on a fuel argument that
starts at the string's length (each step consumes at least one character,
so the fuel never runs out on the strings it is called with). -/
def pyReplaceAux (pat rep : PyStr) : Nat → PyStr → PyStr
  | _, [] => []
  | 0, s => s
  | fuel + 1, x :: xs =>
    if pat ≠ [] ∧ pat.isPrefixOf (x :: xs) then
      rep ++ pyReplaceAux pat rep fuel ((x :: xs).drop pat.length)
    else
      x :: pyReplaceAux pat rep fuel xs

/-- Python `str.replace(pat, rep)`: replace every non-overlapping occurrence,
scanning left to right (the source only calls it with a non-empty pattern). -/
def pyReplace (s pat rep : PyStr) : PyStr := pyReplaceAux pat rep s.length s

/-- Lexicographic (code-point) strict order on Python strings. -/
def pyLt : PyStr → PyStr → Bool
  | [], [] => false
  | [], _ :: _ => true
  | _ :: _, [] => false
  | x :: xs, y :: ys => if x = y then pyLt xs ys else decide (x < y)

/-- Insert into a sorted list, after all elements that are `≤` the new one
(so that the overall sort is stable, like Python's `sorted`). -/
def pyInsert (x : PyStr) : List PyStr → List PyStr
  | [] => [x]
  | y :: ys => if pyLt x y then x :: y :: ys else y :: pyInsert x ys

/-- Python `sorted` on a list of strings (stable insertion sort). -/
def pySorted (l : List PyStr) : List PyStr :=
  l.foldl (fun acc x => pyInsert x acc) []

/-- Truthiness of an `Optional[str]` in Python: `None` and `""` are falsy. -/
def pyTruthy : Option PyStr → Bool
  | none => false
  | some s => !s.isEmpty

/- ### Basic lemmas about the string model -/

theorem pySplit_ne_nil (c : Char) (s : PyStr) : pySplit c s ≠ [] := by
  cases s with
  | nil => simp [pySplit]
  | cons x xs =>
    simp only [pySplit]
    cases h : pySplit c xs with
    | nil => simp
    | cons a t => by_cases hx : x = c <;> simp [hx]

theorem pySplit_exists_cons (c : Char) (s : PyStr) :
    ∃ h t, pySplit c s = h :: t := by
  obtain ⟨h, t, ht⟩ := List.exists_cons_of_ne_nil (pySplit_ne_nil c s)
  exact ⟨h, t, ht⟩

theorem pySplit_append (c : Char) (xs ys : PyStr) :
    pySplit c (xs ++ c :: ys) = pySplit c xs ++ pySplit c ys := by
  induction xs with
  | nil =>
    obtain ⟨h, t, hht⟩ := pySplit_exists_cons c ys
    simp [pySplit, hht]
  | cons a as ih =>
    obtain ⟨h, t, hht⟩ := pySplit_exists_cons c (as ++ c :: ys)
    obtain ⟨h', t', hht'⟩ := pySplit_exists_cons c as
    have hcat : h :: t = h' :: (t' ++ pySplit c ys) := by
      rw [← hht, ih, hht']; rfl
    by_cases ha : a = c <;>
      simp_all [pySplit, List.cons_append, hht, hht']

theorem pySplit_single (c : Char) (s : PyStr) (h : c ∉ s) : pySplit c s = [s] := by
  induction s with
  | nil => rfl
  | cons a as ih =>
    have ha : ¬(a = c) := fun hac => h (hac ▸ List.mem_cons_self a as)
    have has : pySplit c as = [as] := ih (fun hm => h (List.mem_cons_of_mem _ hm))
    simp [pySplit, has, ha]

theorem pySplit_pyJoin (c : Char) (ls : List PyStr) (h0 : ls ≠ [])
    (hc : ∀ l ∈ ls, c ∉ l) : pySplit c (pyJoin c ls) = ls := by
  induction ls with
  | nil => exact absurd rfl h0
  | cons a as ih =>
    cases as with
    | nil => exact pySplit_single c a (hc a (List.mem_cons_self a []))
    | cons b bs =>
      have hj : pyJoin c (a :: b :: bs) = a ++ c :: pyJoin c (b :: bs) := rfl
      rw [hj, pySplit_append, pySplit_single c a (hc a (by simp)),
        ih (by simp) (fun l hl => hc l (List.mem_cons_of_mem _ hl))]
      rfl

theorem pySplit_not_mem (c : Char) (s : PyStr) : ∀ l ∈ pySplit c s, c ∉ l := by
  induction s with
  | nil =>
    intro l hl
    simp [pySplit] at hl
    simp [hl]
  | cons x xs ih =>
    intro l hl
    obtain ⟨h, t, hht⟩ := pySplit_exists_cons c xs
    by_cases hx : x = c
    · simp only [pySplit, hht, hx, if_true] at hl
      rcases List.mem_cons.mp hl with h1 | h2
      · simp [h1]
      · exact ih l (hht ▸ h2)
    · simp only [pySplit, hht, hx, if_false] at hl
      rcases List.mem_cons.mp hl with h1 | h2
      · subst h1
        intro hmem
        rcases List.mem_cons.mp hmem with h3 | h4
        · exact hx h3.symm
        · exact ih h (by simp [hht]) h4
      · exact ih l (by simp [hht, h2])

theorem pyStripLeft_cons_of_not_space {a : Char} (s : PyStr)
    (h : isPySpace a = false) : pyStripLeft (a :: s) = a :: s := by
  simp [pyStripLeft, List.dropWhile_cons, h]

theorem length_dropWhile_le (p : Char → Bool) (l : PyStr) :
    (l.dropWhile p).length ≤ l.length := by
  induction l with
  | nil => simp
  | cons a as ih =>
    by_cases h : p a <;> simp [List.dropWhile_cons, h] <;> omega

theorem not_space_of_pyStripLeft_cons {a : Char} {s : PyStr}
    (h : pyStripLeft (a :: s) = a :: s) : isPySpace a = false := by
  by_contra hcon
  have ha : isPySpace a = true := by revert hcon; cases isPySpace a <;> simp
  have h2 : pyStripLeft (a :: s) = pyStripLeft s := by
    simp [pyStripLeft, List.dropWhile_cons, ha]
  have hlen : (pyStripLeft s).length ≤ s.length := length_dropWhile_le _ _
  rw [h] at h2
  have hlen2 : (a :: s).length = (pyStripLeft s).length := by rw [h2]
  simp only [List.length_cons] at hlen2
  omega

theorem pyStripLeft_append (s t : PyStr) (hs : pyStripLeft s = s) (hne : s ≠ []) :
    pyStripLeft (s ++ t) = s ++ t := by
  cases s with
  | nil => exact absurd rfl hne
  | cons a as =>
    have ha : isPySpace a = false := not_space_of_pyStripLeft_cons hs
    simp [pyStripLeft, List.dropWhile_cons, ha]

theorem pyStripRight_append (s t : PyStr) (ht : pyStripRight t = t) (hne : t ≠ []) :
    pyStripRight (s ++ t) = s ++ t := by
  have hrev : pyStripLeft t.reverse = t.reverse := by
    have := congrArg List.reverse ht
    simpa [pyStripRight] using this
  have hrevne : t.reverse ≠ [] := by simpa using hne
  have : pyStripLeft (t.reverse ++ s.reverse) = t.reverse ++ s.reverse :=
    pyStripLeft_append _ _ hrev hrevne
  simp [pyStripRight, List.reverse_append, this]

theorem pyStrip_eq_self (s : PyStr) (hl : pyStripLeft s = s)
    (hr : pyStripRight s = s) : pyStrip s = s := by
  rw [pyStrip, hl, hr]

/-- A line that survives `strip`/`split` round trips unchanged: non-empty,
newline-free, and with no leading or trailing strippable whitespace. -/
def CleanRow (r : PyStr) : Prop :=
  r ≠ [] ∧ (∀ c ∈ r, c ≠ '\n') ∧ pyStripLeft r = r ∧ pyStripRight r = r

instance (r : PyStr) : Decidable (CleanRow r) := by
  unfold CleanRow; infer_instance

theorem pyStripRight_pyJoin (rows : List PyStr) (h0 : rows ≠ [])
    (hc : ∀ r ∈ rows, CleanRow r) :
    pyStripRight (pyJoin '\n' rows) = pyJoin '\n' rows ∧ pyJoin '\n' rows ≠ [] := by
  induction rows with
  | nil => exact absurd rfl h0
  | cons a as ih =>
    cases as with
    | nil =>
      obtain ⟨hne, _, _, hr⟩ := hc a (List.mem_cons_self a [])
      exact ⟨hr, hne⟩
    | cons b bs =>
      obtain ⟨ihr, ihne⟩ :=
        ih (by simp) (fun r hr => hc r (List.mem_cons_of_mem _ hr))
      have hj : pyJoin '\n' (a :: b :: bs) = (a ++ ['\n']) ++ pyJoin '\n' (b :: bs) := by
        simp [pyJoin]
      constructor
      · rw [hj]
        exact pyStripRight_append _ _ ihr ihne
      · rw [hj]
        simp [ihne]

/-- A non-empty clean "content" string of the shape the handler writes back:
a fixed first segment followed by newline-joined clean rows stays unchanged
under `strip`. -/
theorem pyStrip_head_append (hdr tail : PyStr) (hhdr : pyStripLeft hdr = hdr)
    (hne : hdr ≠ []) (htail : pyStripRight tail = tail) (htne : tail ≠ []) :
    pyStrip (hdr ++ tail) = hdr ++ tail := by
  apply pyStrip_eq_self
  · exact pyStripLeft_append _ _ hhdr hne
  · exact pyStripRight_append _ _ htail htne

/- ### The timestamp model

`cleanup_old_conversions` parses the third CSV column with
`datetime.strptime(s, '%Y-%m-%d %H:%M:%S')` and compares the result (made
aware in the configured zone) against the cutoff.  The deployment zone
(`America/Sao_Paulo`, fixed offset since 2019) localizes both sides
identically, so comparison of the aware datetimes coincides with
comparison of the parsed wall-clock fields. -/

structure Timestamp where
  year : Nat
  month : Nat
  day : Nat
  hour : Nat
  minute : Nat
  second : Nat
deriving DecidableEq, Repr

/-- Linearization of the wall-clock fields; strictly monotone in the
lexicographic field order given the parser's range checks. -/
def Timestamp.toKey (t : Timestamp) : Nat :=
  ((((t.year * 13 + t.month) * 32 + t.day) * 24 + t.hour) * 60 + t.minute) * 60
    + t.second

def digitVal (c : Char) : Nat := c.toNat - 48

/-- Start points of the aligned 10-character runs of Unicode decimal digits
(category `Nd`), each run carrying the values 0-9: the set matched by `\d`
in a CPython `str` regex and converted positionally by `int()`. -/
def ndRangeStarts : List Nat :=
  [48, 1632, 1776, 1984, 2406, 2534, 2662, 2790, 2918, 3046, 3174, 3302,
   3430, 3558, 3664, 3792, 3872, 4160, 4240, 6112, 6160, 6470, 6608, 6784,
   6800, 6992, 7088, 7232, 7248, 42528, 43216, 43264, 43472, 43504, 43600,
   44016, 65296, 66720, 68912, 69734, 69872, 69942, 70096, 70384, 70736,
   70864, 71248, 71360, 71472, 71904, 72016, 72784, 73040, 73120, 92768,
   92864, 93008, 120782, 120792, 120802, 120812, 120822, 123200, 123632,
   125264, 130032]

/-- The decimal value of a Unicode decimal digit, `none` for any other
character. -/
def ndDigitVal (c : Char) : Option Nat :=
  match ndRangeStarts.find? (fun b => b ≤ c.toNat && c.toNat ≤ b + 9) with
  | some b => some (c.toNat - b)
  | none => none

/-- An ASCII character class such as `[0-5]`. -/
def inAsciiClass (lo hi c : Char) : Bool := lo ≤ c && c ≤ hi

/-- A `_strptime` group alternative of two ASCII-class characters (such as
`1[0-2]`, a one-character class being a literal). -/
def altAsciiAscii (l1 h1 l2 h2 : Char) (s : PyStr) : Option (Nat × PyStr) :=
  match s with
  | a :: b :: rest =>
    if inAsciiClass l1 h1 a && inAsciiClass l2 h2 b then
      some (digitVal a * 10 + digitVal b, rest)
    else none
  | _ => none

/-- An alternative of an ASCII-class character followed by `\d` (any
Unicode decimal digit), such as `[1-2]\d`. -/
def altAsciiNd (l1 h1 : Char) (s : PyStr) : Option (Nat × PyStr) :=
  match s with
  | a :: b :: rest =>
    if inAsciiClass l1 h1 a then
      match ndDigitVal b with
      | some vb => some (digitVal a * 10 + vb, rest)
      | none => none
    else none
  | _ => none

/-- A single ASCII-class character alternative, such as `[1-9]`. -/
def altAscii1 (l h : Char) (s : PyStr) : Option (Nat × PyStr) :=
  match s with
  | a :: rest => if inAsciiClass l h a then some (digitVal a, rest) else none
  | _ => none

/-- A single `\d` alternative. -/
def altNd1 (s : PyStr) : Option (Nat × PyStr) :=
  match s with
  | a :: rest =>
    match ndDigitVal a with
    | some v => some (v, rest)
    | none => none
  | _ => none

/-- The space-padded ` [1-9]` alternative of `%d`: a literal space then an
ASCII digit. -/
def altSpaceAscii (l h : Char) (s : PyStr) : Option (Nat × PyStr) :=
  match s with
  | ' ' :: a :: rest =>
    if inAsciiClass l h a then some (digitVal a, rest) else none
  | _ => none

/-- Ordered alternation with the regex's backtracking: try the
alternatives in order, running the continuation on a local match and
falling through to the next alternative when the continuation fails (each
alternative matches in at most one way, so this search order is exactly
the regex engine's). -/
def tryAlts (alts : List (PyStr → Option (Nat × PyStr))) (s : PyStr)
    (k : Nat → PyStr → Option Timestamp) : Option Timestamp :=
  match alts with
  | [] => none
  | a :: rest =>
    match a s with
    | some (v, s2) =>
      match k v s2 with
      | some t => some t
      | none => tryAlts rest s k
    | none => tryAlts rest s k

def expectChar (c : Char) (s : PyStr) : Option PyStr :=
  match s with
  | x :: xs => if x = c then some xs else none
  | [] => none

/-- `\s+`: one or more characters of the regex `\s` class, which for `str`
patterns is the same set as `str.isspace()` — CPython `_strptime` rewrites
literal whitespace in the format into `\s+`. -/
def expectSpaces (s : PyStr) : Option PyStr :=
  let run := s.takeWhile isPySpace
  if run.isEmpty then none else some (s.drop run.length)

/-- `\d\d\d\d`, the `%Y` group: four Unicode decimal digits. -/
def parseY4 (s : PyStr) : Option (Nat × PyStr) :=
  match s with
  | a :: b :: c :: d :: rest =>
    match ndDigitVal a, ndDigitVal b, ndDigitVal c, ndDigitVal d with
    | some va, some vb, some vc, some vd =>
      some (((va * 10 + vb) * 10 + vc) * 10 + vd, rest)
    | _, _, _, _ => none
  | _ => none

/-- `%m`: `1[0-2]|0[1-9]|[1-9]`. -/
def monthAlts : List (PyStr → Option (Nat × PyStr)) :=
  [altAsciiAscii '1' '1' '0' '2', altAsciiAscii '0' '0' '1' '9',
   altAscii1 '1' '9']

/-- `%d`: `3[0-1]|[1-2]\d|0[1-9]|[1-9]| [1-9]`. -/
def dayAlts : List (PyStr → Option (Nat × PyStr)) :=
  [altAsciiAscii '3' '3' '0' '1', altAsciiNd '1' '2',
   altAsciiAscii '0' '0' '1' '9', altAscii1 '1' '9', altSpaceAscii '1' '9']

/-- `%H`: `2[0-3]|[0-1]\d|\d`. -/
def hourAlts : List (PyStr → Option (Nat × PyStr)) :=
  [altAsciiAscii '2' '2' '0' '3', altAsciiNd '0' '1', altNd1]

/-- `%M`: `[0-5]\d|\d`. -/
def minuteAlts : List (PyStr → Option (Nat × PyStr)) :=
  [altAsciiNd '0' '5', altNd1]

/-- `%S`: `6[0-1]|[0-5]\d|\d` (60 and 61 match here and are then rejected
by the `datetime` constructor). -/
def secondAlts : List (PyStr → Option (Nat × PyStr)) :=
  [altAsciiAscii '6' '6' '0' '1', altAsciiNd '0' '5', altNd1]

def isLeapYear (y : Nat) : Bool :=
  (y % 4 = 0 && y % 100 ≠ 0) || y % 400 = 0

def daysInMonth (y m : Nat) : Nat :=
  if m = 2 then (if isLeapYear y then 29 else 28)
  else if m = 4 ∨ m = 6 ∨ m = 9 ∨ m = 11 then 30 else 31

/-- `datetime.strptime(s, '%Y-%m-%d %H:%M:%S')`: CPython `_strptime`
compiles the format into the regex
`(?P<Y>\d\d\d\d)-(?P<m>1[0-2]|0[1-9]|[1-9])-(?P<d>3[0-1]|[1-2]\d|0[1-9]|[1-9]| [1-9])\s+(?P<H>2[0-3]|[0-1]\d|\d):(?P<M>[0-5]\d|\d):(?P<S>6[0-1]|[0-5]\d|\d)`
(the format's literal space becomes `\s+`), matches it from the start,
raises `ValueError` when unconverted data remains, and the `datetime`
constructor then validates `1 ≤ year`, the day against the month, and
`second ≤ 59`.  Any `ValueError` is modelled as `none`. -/
def strptimeYmdHms (s : PyStr) : Option Timestamp :=
  match parseY4 s with
  | none => none
  | some (y, s1) =>
    match expectChar '-' s1 with
    | none => none
    | some s2 =>
      tryAlts monthAlts s2 (fun m s3 =>
        match expectChar '-' s3 with
        | none => none
        | some s4 =>
          tryAlts dayAlts s4 (fun d s5 =>
            match expectSpaces s5 with
            | none => none
            | some s6 =>
              tryAlts hourAlts s6 (fun h s7 =>
                match expectChar ':' s7 with
                | none => none
                | some s8 =>
                  tryAlts minuteAlts s8 (fun mi s9 =>
                    match expectChar ':' s9 with
                    | none => none
                    | some s10 =>
                      tryAlts secondAlts s10 (fun sec s11 =>
                        if s11 = [] ∧ 1 ≤ y ∧ d ≤ daysInMonth y m ∧ sec ≤ 59
                        then some ⟨y, m, d, h, mi, sec⟩
                        else none)))))

/- ### The CSV layer of `CSVHandler` -/

/-- The fixed header line (without the trailing newline). -/
def csvHeaderLine : PyStr :=
  pys "Google Click ID,Conversion Name,Conversion Time,Conversion Value,Conversion Currency,Order ID"

/-- The header literal used by `_create_new_csv`, `create_empty_source` and
`_append_to_history`: it ends in a newline. -/
def csvHeader : PyStr := csvHeaderLine ++ ['\n']

/-- `line.startswith('Google Click ID')`. -/
def isHeaderLine (l : PyStr) : Bool := (pys "Google Click ID").isPrefixOf l

/-- `line.startswith('Parameters:')`. -/
def isParamLine (l : PyStr) : Bool := (pys "Parameters:").isPrefixOf l

/-- `not line.strip()`. -/
def isBlankLine (l : PyStr) : Bool := (pyStrip l).isEmpty

/-- The repeated data-line filter
`not line.startswith('Parameters:') and not line.startswith('Google Click ID') and line.strip()`. -/
def isDataLine (l : PyStr) : Bool :=
  !isParamLine l && !isHeaderLine l && !isBlankLine l

/-- `content.strip().split('\n')`, the way every reader in the source
tokenizes a stored CSV into lines. -/
def stripSplitLines (s : PyStr) : List PyStr := pySplit '\n' (pyStrip s)

/-- One conversion event, with the fields in the order of the encoded line.
The monetary value is carried as its already-stringified form
(`str(conversion_value)`); `none` models an absent optional field. -/
structure ConversionRecord where
  clickId : PyStr
  label : PyStr
  occurredAt : PyStr
  value : Option PyStr
  currency : PyStr
  orderId : Option PyStr
deriving DecidableEq, Repr

/-- `value if value is not None else ""` (and the same for `order_id`). -/
def optField (o : Option PyStr) : PyStr := o.getD []

/-- The f-string
`f"{gclid},{settings.CONVERSION_NAME},{formatted_time},{value},{settings.CURRENCY},{order_id_value}"`
of `add_conversion` / `_create_new_csv`. -/
def encode (r : ConversionRecord) : PyStr :=
  r.clickId ++ ',' :: r.label ++ ',' :: r.occurredAt ++ ',' :: optField r.value
    ++ ',' :: r.currency ++ ',' :: optField r.orderId

/-- Modelled from the spec: the source never materializes a full record from
a line (its archival scan only extracts the third field), so the Record
Codec's `decode` is taken from §4.1 of the spec: split on `,`; malformed if
fewer than 3 fields; an empty or missing optional field decodes as absent
(a 5-field legacy line yields `orderId = absent`). -/
def decode (line : PyStr) : Option ConversionRecord :=
  let parts := pySplit ',' line
  if parts.length < 3 then none
  else some
    { clickId := parts.getD 0 []
      label := parts.getD 1 []
      occurredAt := parts.getD 2 []
      value :=
        if 4 ≤ parts.length ∧ parts.getD 3 [] ≠ [] then some (parts.getD 3 [])
        else none
      currency := parts.getD 4 []
      orderId :=
        if 6 ≤ parts.length ∧ parts.getD 5 [] ≠ [] then some (parts.getD 5 [])
        else none }

/-- `_create_new_csv`: header plus the first row (no trailing newline). -/
def createNewCsv (row : PyStr) : PyStr := csvHeader ++ row

/-- The storage read-modify part of `add_conversion` (lines 147-159): given
the fetched blob for the account and the encoded new row, the CSV text that
is written back. -/
def add_conversion_content (existing : Option PyStr) (newRow : PyStr) : PyStr :=
  if pyTruthy existing then
    let lines := stripSplitLines (existing.getD [])
    let headerLines := lines.filter isHeaderLine
    let dataLines := lines.filter isDataLine
    pyJoin '\n' headerLines ++ '\n' :: pyJoin '\n' (dataLines ++ [newRow])
  else
    createNewCsv newRow

/-- The count of one stored blob in `get_conversion_count` (lines 249-254
and 257-262): number of data lines of the stripped content, `0` when the
blob is absent or empty. -/
def countDataLines (o : Option PyStr) : Nat :=
  if pyTruthy o then
    ((stripSplitLines (o.getD [])).filter isDataLine).length
  else 0

/-- The data lines themselves (whose length `get_conversion_count` reports). -/
def recentDataLines (o : Option PyStr) : List PyStr :=
  if pyTruthy o then (stripSplitLines (o.getD [])).filter isDataLine else []

/- ### The archiver: `cleanup_old_conversions` and `_append_to_history` -/

/-- Lines 302-310: split the row on `,`; with at least 3 fields, parse the
third with `strptime`; a parse failure (or a short row) is `none`. -/
def rowTime (line : PyStr) : Option Timestamp :=
  let parts := pySplit ',' line
  if 3 ≤ parts.length then strptimeYmdHms (parts.getD 2 []) else none

/-- Line 312: `conversion_time < cutoff_time` (strictly); rows that do not
parse are never old. -/
def rowIsOld (cutoff : Timestamp) (line : PyStr) : Bool :=
  match rowTime line with
  | some t => t.toKey < cutoff.toKey
  | none => false

/-- The loop state of `cleanup_old_conversions`: `header_line`,
`recent_rows`, `old_rows`. -/
structure ScanState where
  header : Option PyStr
  recent : List PyStr
  old : List PyStr
deriving DecidableEq, Repr

/-- One iteration of the `for line in lines` loop (lines 292-321). -/
def cleanupStep (cutoff : Timestamp) (s : ScanState) (line : PyStr) : ScanState :=
  if isHeaderLine line then { s with header := some line }
  else if isParamLine line || isBlankLine line then s
  else if rowIsOld cutoff line then { s with old := s.old ++ [line] }
  else { s with recent := s.recent ++ [line] }

/-- The whole scan over the stripped, split content. -/
def cleanupScan (cutoff : Timestamp) (lines : List PyStr) : ScanState :=
  lines.foldl (cleanupStep cutoff) ⟨none, [], []⟩

/-- Lines 324-327: the text written back to the account's main key. -/
def recentCsvOf (header : Option PyStr) (recentRows : List PyStr) : PyStr :=
  match header with
  | some h => if recentRows ≠ [] then h ++ '\n' :: pyJoin '\n' recentRows else h
  | none => pyJoin '\n' recentRows

/-- `_append_to_history` (lines 342-364): the text written to the
`{src}_history` key, given the currently stored history blob. -/
def append_to_history (existing : Option PyStr) (rows : List PyStr) : PyStr :=
  if pyTruthy existing then
    pyStrip (existing.getD []) ++ '\n' :: pyJoin '\n' rows
  else
    csvHeader ++ '\n' :: pyJoin '\n' rows

/-- The outcome of `cleanup_old_conversions`: the content written to the
main key (if any write happens), the rows passed to `_append_to_history`
(if any), and the returned counts. -/
structure CleanupResult where
  mainWrite : Option PyStr
  historyAppend : Option (List PyStr)
  archived : Nat
  remaining : Nat
deriving DecidableEq, Repr

/-- `cleanup_old_conversions` (lines 270-340), with the cutoff given as the
wall-clock timestamp `datetime.now(tz) - timedelta(hours=hours)`. -/
def cleanup_old_conversions (content : Option PyStr) (cutoff : Timestamp) :
    CleanupResult :=
  if pyTruthy content then
    let s := cleanupScan cutoff (stripSplitLines (content.getD []))
    { mainWrite := some (recentCsvOf s.header s.recent)
      historyAppend := if s.old ≠ [] then some s.old else none
      archived := s.old.length
      remaining := s.recent.length }
  else
    { mainWrite := none, historyAppend := none, archived := 0, remaining := 0 }

/- ### Storage-facing pieces: `get_csv` and `get_all_sources` -/

/-- What the blob backend reports for one `get_object` call. -/
inductive BlobGetResult where
  | found (content : PyStr)
  | noSuchKey
  | ioError (msg : PyStr)
deriving DecidableEq, Repr

/-- `R2Storage.get_csv` (lines 29-47): `NoSuchKey` yields `None`, and any
other exception is caught, printed, and also yields `None`. -/
def get_csv (r : BlobGetResult) : Option PyStr :=
  match r with
  | .found c => some c
  | .noSuchKey => none
  | .ioError _ => none

/-- `get_all_sources` (lines 214-235): every key ending in `.csv`, with all
occurrences of `.csv` removed, sorted. -/
def get_all_sources (keys : List PyStr) : List PyStr :=
  pySorted ((keys.filter (fun k => (pys ".csv").isSuffixOf k)).map
    (fun k => pyReplace k (pys ".csv") []))

/-- The accounts `cleanup_all_sources` (lines 366-386) actually cleans: it
iterates `get_all_sources()` and skips identifiers ending in `_history`. -/
def cleanup_all_sources_targets (keys : List PyStr) : List PyStr :=
  (get_all_sources keys).filter (fun s => !(pys "_history").isSuffixOf s)

/- ### Time normalization in `add_conversion` (lines 134-145)

`datetime.fromisoformat(conversion_time.replace('Z', '+00:00'))`, then
`.astimezone(self.timezone)`, then `strftime('%Y-%m-%d %H:%M:%S')`; any
exception falls back to `datetime.now(self.timezone)` formatted the same
way.  The configured zone has had a fixed UTC offset since 2019 and the
process-local zone of the deployment is taken to be the configured zone, so
`astimezone` on a naive datetime keeps the wall-clock fields and on an
aware one shifts through the epoch. -/

/-- A parsed ISO-8601 value: wall-clock fields plus an optional UTC offset
in seconds (`none` = naive). -/
structure OffsetDateTime where
  ts : Timestamp
  offsetSeconds : Option Int
deriving DecidableEq, Repr

/-- Exactly two ASCII digits (the C implementation of `fromisoformat`
accepts only ASCII digits). -/
def parseD2 (s : PyStr) : Option (Nat × PyStr) :=
  match s with
  | a :: b :: rest =>
    if a.isDigit && b.isDigit then some (digitVal a * 10 + digitVal b, rest)
    else none
  | _ => none

/-- Exactly four ASCII digits. -/
def parseD4 (s : PyStr) : Option (Nat × PyStr) :=
  match s with
  | a :: b :: c :: d :: rest =>
    if a.isDigit && b.isDigit && c.isDigit && d.isDigit then
      some ((((digitVal a * 10) + digitVal b) * 10 + digitVal c) * 10
        + digitVal d, rest)
    else none
  | _ => none

/-- A fractional-seconds part after the dot: CPython ≤ 3.10 accepts exactly
3 or 6 digits (the value itself never reaches the formatted output). -/
def parseFracDigits (s : PyStr) : Option PyStr :=
  let run := s.takeWhile Char.isDigit
  if run.length = 3 ∨ run.length = 6 then some (s.drop run.length) else none

/-- The `HH[:MM[:SS[.fff[fff]]]]` time grammar of
`datetime.fromisoformat`. -/
def parseTimePart (s : PyStr) : Option (Nat × Nat × Nat × PyStr) := do
  let (h, s1) ← parseD2 s
  match s1 with
  | ':' :: s2 =>
    let (mi, s3) ← parseD2 s2
    match s3 with
    | ':' :: s4 =>
      let (sec, s5) ← parseD2 s4
      match s5 with
      | '.' :: s6 => do
        let s7 ← parseFracDigits s6
        pure (h, mi, sec, s7)
      | _ => pure (h, mi, sec, s5)
    | _ => pure (h, mi, 0, s3)
  | _ => pure (h, 0, 0, s1)

/-- The `HH:MM[:SS[.ffffff]]` offset tail (after the sign), which must
consume the rest of the string; the result is the offset magnitude in
seconds.  `timezone` only checks that the magnitude stays below 24 hours,
done by the caller. -/
def parseTzTail (s : PyStr) : Option Nat := do
  let (h, s1) ← parseD2 s
  let s2 ← expectChar ':' s1
  let (mi, s3) ← parseD2 s2
  match s3 with
  | [] => pure (h * 3600 + mi * 60)
  | ':' :: s4 =>
    let (sec, s5) ← parseD2 s4
    match s5 with
    | [] => pure (h * 3600 + mi * 60 + sec)
    | '.' :: s6 =>
      let run := s6.takeWhile Char.isDigit
      if run.length = 6 ∧ s6.drop run.length = [] then
        pure (h * 3600 + mi * 60 + sec)
      else none
    | _ => none
  | _ => none

/-- `datetime.fromisoformat` (CPython ≤ 3.10 grammar): `YYYY-MM-DD`, an
optional arbitrary one-character separator plus a time, and an optional
`±HH:MM[:SS[.ffffff]]` offset; the `datetime`/`timezone` constructors
validate the field ranges. -/
def fromisoformat (s : PyStr) : Option OffsetDateTime := do
  let (y, s1) ← parseD4 s
  let s2 ← expectChar '-' s1
  let (m, s3) ← parseD2 s2
  let s4 ← expectChar '-' s3
  let (d, s5) ← parseD2 s4
  if 1 ≤ y ∧ 1 ≤ m ∧ m ≤ 12 ∧ 1 ≤ d ∧ d ≤ daysInMonth y m then
    match s5 with
    | [] => pure ⟨⟨y, m, d, 0, 0, 0⟩, none⟩
    | _ :: rest => do
      let (h, mi, sec, rest2) ← parseTimePart rest
      if h ≤ 23 ∧ mi ≤ 59 ∧ sec ≤ 59 then
        match rest2 with
        | [] => pure ⟨⟨y, m, d, h, mi, sec⟩, none⟩
        | '+' :: tz => do
          let off ← parseTzTail tz
          if off < 86400 then pure ⟨⟨y, m, d, h, mi, sec⟩, some (off : Int)⟩
          else none
        | '-' :: tz => do
          let off ← parseTzTail tz
          if off < 86400 then pure ⟨⟨y, m, d, h, mi, sec⟩, some (-(off : Int))⟩
          else none
        | _ => none
      else none
  else none

/-- Days since 1970-01-01 of a civil date (Howard Hinnant's `days_from_civil`,
floor-division variant; the parsers only produce `year ≥ 1`). -/
def daysFromCivil (y0 m d : Int) : Int :=
  let y := if m ≤ 2 then y0 - 1 else y0
  let era := Int.ediv y 400
  let yoe := y - era * 400
  let doy := Int.ediv (153 * (if 2 < m then m - 3 else m + 9) + 2) 5 + d - 1
  let doe := yoe * 365 + Int.ediv yoe 4 - Int.ediv yoe 100 + doy
  era * 146097 + doe - 719468

/-- Civil date of a day count since 1970-01-01 (`civil_from_days`,
floor-division variant). -/
def civilFromDays (z0 : Int) : Int × Int × Int :=
  let z := z0 + 719468
  let era := Int.ediv z 146097
  let doe := z - era * 146097
  let yoe :=
    Int.ediv (doe - Int.ediv doe 1460 + Int.ediv doe 36524 - Int.ediv doe 146096) 365
  let y := yoe + era * 400
  let doy := doe - (365 * yoe + Int.ediv yoe 4 - Int.ediv yoe 100)
  let mp := Int.ediv (5 * doy + 2) 153
  let d := doy - Int.ediv (153 * mp + 2) 5 + 1
  let m := if mp < 10 then mp + 3 else mp - 9
  (if m ≤ 2 then y + 1 else y, m, d)

def toEpochSeconds (t : Timestamp) : Int :=
  86400 * daysFromCivil t.year t.month t.day
    + 3600 * t.hour + 60 * t.minute + t.second

def ofEpochSeconds (e : Int) : Timestamp :=
  let days := Int.ediv e 86400
  let rem := (Int.emod e 86400).toNat
  match civilFromDays days with
  | (y, m, d) => ⟨y.toNat, m.toNat, d.toNat, rem / 3600, rem % 3600 / 60, rem % 60⟩

/-- `dt.astimezone(self.timezone)`: a naive value is interpreted in the
process-local zone (taken to be the configured zone, so the wall clock is
unchanged); an aware value is shifted through the epoch into the configured
zone's fixed offset. -/
def astimezoneLocal (localOffsetSeconds : Int) (dt : OffsetDateTime) : Timestamp :=
  match dt.offsetSeconds with
  | none => dt.ts
  | some off => ofEpochSeconds (toEpochSeconds dt.ts - off + localOffsetSeconds)

def padZeros (w n : Nat) : PyStr :=
  let ds := Nat.toDigits 10 n
  List.replicate (w - ds.length) '0' ++ ds

/-- `strftime('%Y-%m-%d %H:%M:%S')`. -/
def formatYmdHms (t : Timestamp) : PyStr :=
  padZeros 4 t.year ++ '-' :: padZeros 2 t.month ++ '-' :: padZeros 2 t.day
    ++ ' ' :: padZeros 2 t.hour ++ ':' :: padZeros 2 t.minute
    ++ ':' :: padZeros 2 t.second

/-- Lines 134-145 of `add_conversion`: parse-and-convert with fallback to
`datetime.now(self.timezone)` (passed in as `nowLocal`); the exception is
only printed, not propagated. -/
def formattedTime (localOffsetSeconds : Int) (nowLocal : Timestamp)
    (conversionTime : PyStr) : PyStr :=
  match fromisoformat (pyReplace conversionTime (pys "Z") (pys "+00:00")) with
  | some dt => formatYmdHms (astimezoneLocal localOffsetSeconds dt)
  | none => formatYmdHms nowLocal

/-- `add_conversion` (lines 118-165): normalize the time, build the row,
read-modify-write the account's blob.  The returned pair is the content
written by `save_csv` and the method's return value, which is exactly the
save's success flag. -/
def add_conversion (localOffsetSeconds : Int) (nowLocal : Timestamp)
    (existing : Option PyStr) (gclid conversionName : PyStr)
    (conversionValue : Option PyStr) (currency : PyStr)
    (orderId : Option PyStr) (conversionTime : PyStr) (saveOk : Bool) :
    PyStr × Bool :=
  let ft := formattedTime localOffsetSeconds nowLocal conversionTime
  let row := encode ⟨gclid, conversionName, ft, conversionValue, currency, orderId⟩
  (add_conversion_content existing row, saveOk)

/- ### Interleavings of two concurrent appends to the same key -/

inductive RaceEvent where
  | readA | readB | writeA | writeB
deriving DecidableEq, Repr

/-- The store plus each writer's private read buffer. -/
structure RaceState where
  store : Option PyStr
  viewA : Option PyStr
  viewB : Option PyStr
deriving DecidableEq, Repr

/-- One atomic blob-store step of the read-modify-write append: a read
snapshots the store into the writer's view, a write stores the content the
writer computed from its view. -/
def raceStep (rowA rowB : PyStr) (s : RaceState) : RaceEvent → RaceState
  | .readA => { s with viewA := s.store }
  | .readB => { s with viewB := s.store }
  | .writeA => { s with store := some (add_conversion_content s.viewA rowA) }
  | .writeB => { s with store := some (add_conversion_content s.viewB rowB) }

/-- Run an interleaving of the two appends' store operations. -/
def runRace (st0 : Option PyStr) (rowA rowB : PyStr) (trace : List RaceEvent) :
    RaceState :=
  trace.foldl (raceStep rowA rowB) ⟨st0, none, none⟩

/- ### Characterizing the cleanup scan -/

/-- The last line of the list that the scan recognizes as a header (the
loop overwrites `header_line` on every header hit). -/
def lastHeaderLine : List PyStr → Option PyStr
  | [] => none
  | l :: rest =>
    match lastHeaderLine rest with
    | some h => some h
    | none => if isHeaderLine l then some l else none

theorem lastHeaderLine_eq_none (rows : List PyStr)
    (hr : ∀ r ∈ rows, isHeaderLine r = false) : lastHeaderLine rows = none := by
  induction rows with
  | nil => rfl
  | cons a as ih =>
    have ha : isHeaderLine a = false := hr a (List.mem_cons_self a as)
    have has := ih (fun r h => hr r (List.mem_cons_of_mem _ h))
    simp [lastHeaderLine, has, ha]

theorem isDataLine_false_of_header {l : PyStr} (hh : isHeaderLine l = true) :
    isDataLine l = false := by
  simp [isDataLine, hh]

theorem isDataLine_spec {l : PyStr} (hd : isDataLine l = true) :
    isHeaderLine l = false ∧ isParamLine l = false ∧ isBlankLine l = false := by
  simp only [isDataLine, Bool.and_eq_true, Bool.not_eq_true'] at hd
  exact ⟨hd.1.2, hd.1.1, hd.2⟩

theorem cleanupStep_header {cutoff : Timestamp} {st : ScanState} {l : PyStr}
    (hh : isHeaderLine l = true) :
    cleanupStep cutoff st l = { st with header := some l } := by
  simp [cleanupStep, hh]

theorem cleanupStep_skip {cutoff : Timestamp} {st : ScanState} {l : PyStr}
    (hh : isHeaderLine l = false) (hp : (isParamLine l || isBlankLine l) = true) :
    cleanupStep cutoff st l = st := by
  simp [cleanupStep, hh, hp]

theorem cleanupStep_old {cutoff : Timestamp} {st : ScanState} {l : PyStr}
    (hd : isDataLine l = true) (ho : rowIsOld cutoff l = true) :
    cleanupStep cutoff st l = { st with old := st.old ++ [l] } := by
  obtain ⟨h1, h2, h3⟩ := isDataLine_spec hd
  simp [cleanupStep, h1, h2, h3, ho]

theorem cleanupStep_recent {cutoff : Timestamp} {st : ScanState} {l : PyStr}
    (hd : isDataLine l = true) (ho : rowIsOld cutoff l = false) :
    cleanupStep cutoff st l = { st with recent := st.recent ++ [l] } := by
  obtain ⟨h1, h2, h3⟩ := isDataLine_spec hd
  simp [cleanupStep, h1, h2, h3, ho]

theorem cleanupFold_eq (cutoff : Timestamp) (lines : List PyStr) (st : ScanState) :
    List.foldl (cleanupStep cutoff) st lines =
      ⟨match lastHeaderLine lines with
        | some h => some h
        | none => st.header,
       st.recent ++ (lines.filter isDataLine).filter (fun l => !rowIsOld cutoff l),
       st.old ++ (lines.filter isDataLine).filter (fun l => rowIsOld cutoff l)⟩ := by
  induction lines generalizing st with
  | nil => simp [lastHeaderLine]
  | cons l rest ih =>
    simp only [List.foldl_cons]
    by_cases hh : isHeaderLine l
    · have hd := isDataLine_false_of_header hh
      rw [cleanupStep_header hh, ih]
      cases hLH : lastHeaderLine rest <;>
        simp [lastHeaderLine, hLH, hh, hd, List.filter_cons]
    · have hh' : isHeaderLine l = false := by simpa using hh
      by_cases hp : (isParamLine l || isBlankLine l) = true
      · have hd : isDataLine l = false := by
          rcases Bool.or_eq_true_iff.mp hp with h | h <;> simp [isDataLine, h]
        rw [cleanupStep_skip hh' hp, ih]
        cases hLH : lastHeaderLine rest <;>
          simp [lastHeaderLine, hLH, hh', hd, List.filter_cons]
      · have hd : isDataLine l = true := by
          have hp' := (Bool.not_eq_true _).mp hp
          simp only [Bool.or_eq_false_iff] at hp'
          simp [isDataLine, hh', hp'.1, hp'.2]
        by_cases ho : rowIsOld cutoff l
        · rw [cleanupStep_old hd ho, ih]
          cases hLH : lastHeaderLine rest <;>
            simp [lastHeaderLine, hLH, hh', hd, ho, List.filter_cons]
        · have ho' : rowIsOld cutoff l = false := by simpa using ho
          rw [cleanupStep_recent hd ho', ih]
          cases hLH : lastHeaderLine rest <;>
            simp [lastHeaderLine, hLH, hh', hd, ho', List.filter_cons]

theorem cleanupScan_eq (cutoff : Timestamp) (lines : List PyStr) :
    cleanupScan cutoff lines =
      ⟨lastHeaderLine lines,
       (lines.filter isDataLine).filter (fun l => !rowIsOld cutoff l),
       (lines.filter isDataLine).filter (fun l => rowIsOld cutoff l)⟩ := by
  unfold cleanupScan
  rw [cleanupFold_eq]
  cases lastHeaderLine lines <;> simp

theorem lastHeaderLine_wf (h : PyStr) (rows : List PyStr)
    (hh : isHeaderLine h = true) (hr : ∀ r ∈ rows, isHeaderLine r = false) :
    lastHeaderLine (h :: rows) = some h := by
  simp [lastHeaderLine, lastHeaderLine_eq_none rows hr, hh]

theorem pyTruthy_some {s : PyStr} (hne : s ≠ []) : pyTruthy (some s) = true := by
  cases s with
  | nil => exact absurd rfl hne
  | cons a t => rfl

/- ### Concrete example data shared by the witnesses -/

def exCutoff : Timestamp := ⟨2026, 1, 2, 0, 0, 0⟩
def exRowOld : PyStr := pys "g1,purchase,2026-01-01 00:00:00,,BRL,"
def exRowTab : PyStr := pys "g3,purchase,2026-01-01\t00:00:05,,BRL,"
def exRowTie : PyStr := pys "g2,purchase,2026-01-02 00:00:00,,BRL,"
def exContent : PyStr :=
  csvHeaderLine ++ '\n' :: exRowOld ++ '\n' :: exRowTab ++ '\n' :: exRowTie

/- ### C1: the archival partition is a strict-comparison partition -/

/-- **C1.** For every stored log and every cutoff, the archival scan
partitions the data lines by strict comparison: `old_rows` are exactly the
data lines whose third field parses strictly older than the cutoff,
`recent_rows` are exactly the remaining data lines; a parseable row is old
iff its timestamp is strictly below the cutoff (so a row equal to the
cutoff is kept), and the returned `archived`/`remaining` counts are the
sizes of the two parts. -/
theorem archive_partitions_strictly (cutoff : Timestamp) (content : PyStr)
    (hne : content ≠ []) :
    (cleanupScan cutoff (stripSplitLines content)).old
        = ((stripSplitLines content).filter isDataLine).filter
            (fun l => rowIsOld cutoff l)
    ∧ (cleanupScan cutoff (stripSplitLines content)).recent
        = ((stripSplitLines content).filter isDataLine).filter
            (fun l => !rowIsOld cutoff l)
    ∧ (∀ l : PyStr, ∀ t : Timestamp, rowTime l = some t →
        (rowIsOld cutoff l = true ↔ t.toKey < cutoff.toKey))
    ∧ (∀ l : PyStr, rowTime l = some cutoff → rowIsOld cutoff l = false)
    ∧ (cleanup_old_conversions (some content) cutoff).archived
        = (cleanupScan cutoff (stripSplitLines content)).old.length
    ∧ (cleanup_old_conversions (some content) cutoff).remaining
        = (cleanupScan cutoff (stripSplitLines content)).recent.length := by
  have htr := pyTruthy_some hne
  refine ⟨?_, ?_, ?_, ?_, ?_, ?_⟩
  · rw [cleanupScan_eq]
  · rw [cleanupScan_eq]
  · intro l t ht
    simp [rowIsOld, ht]
  · intro l ht
    simp [rowIsOld, ht]
  · simp [cleanup_old_conversions, htr]
  · simp [cleanup_old_conversions, htr]

/-- Witness for C1: a concrete three-row log against a concrete cutoff; a
row whose timestamp uses a tab between date and time still parses (as
CPython's `\s+` does) and is old, while the row tying with the cutoff is
not old. -/
theorem archive_partitions_strictly_witness :
    exContent ≠ []
    ∧ rowTime exRowTie = some exCutoff
    ∧ rowTime exRowTab = some ⟨2026, 1, 1, 0, 0, 5⟩
    ∧ rowIsOld exCutoff exRowTab = true
    ∧ rowIsOld exCutoff exRowTie = false
    ∧ (cleanupScan exCutoff (stripSplitLines exContent)).old
        = ((stripSplitLines exContent).filter isDataLine).filter
            (fun l => rowIsOld exCutoff l) := by
  refine ⟨by decide, by decide, by decide, by decide, ?_, ?_⟩
  · exact (archive_partitions_strictly exCutoff exContent (by decide)).2.2.2.1
      exRowTie (by decide)
  · exact (archive_partitions_strictly exCutoff exContent (by decide)).1

/- ### C2: what the two write-backs contain -/

/-- **C2.** For a well-formed log (header line first), after archival the
main key holds the header followed by exactly the kept rows in their
original relative order; a history append happens exactly when there are
archived rows, and it puts the archived rows, in their original relative
order, after a synthesized header (first write) or after the stripped
existing history content (later writes). -/
theorem archive_writeback (cutoff : Timestamp) (content h : PyStr)
    (rows : List PyStr) (hne : content ≠ [])
    (hc : stripSplitLines content = h :: rows)
    (hh : isHeaderLine h = true)
    (hr : ∀ r ∈ rows, isHeaderLine r = false) :
    (cleanup_old_conversions (some content) cutoff).mainWrite
      = some (recentCsvOf (some h) (cleanupScan cutoff (h :: rows)).recent)
    ∧ pySplit '\n' (recentCsvOf (some h) (cleanupScan cutoff (h :: rows)).recent)
      = h :: (cleanupScan cutoff (h :: rows)).recent
    ∧ (cleanupScan cutoff (h :: rows)).recent
      = (rows.filter isDataLine).filter (fun l => !rowIsOld cutoff l)
    ∧ (cleanupScan cutoff (h :: rows)).old
      = (rows.filter isDataLine).filter (fun l => rowIsOld cutoff l)
    ∧ (cleanup_old_conversions (some content) cutoff).historyAppend
      = (if (cleanupScan cutoff (h :: rows)).old ≠ []
          then some (cleanupScan cutoff (h :: rows)).old else none)
    ∧ ((cleanupScan cutoff (h :: rows)).old ≠ [] →
        pySplit '\n' (append_to_history none (cleanupScan cutoff (h :: rows)).old)
          = csvHeaderLine :: [] :: (cleanupScan cutoff (h :: rows)).old)
    ∧ (∀ e : PyStr, e ≠ [] → (cleanupScan cutoff (h :: rows)).old ≠ [] →
        pySplit '\n' (append_to_history (some e) (cleanupScan cutoff (h :: rows)).old)
          = pySplit '\n' (pyStrip e) ++ (cleanupScan cutoff (h :: rows)).old) := by
  have htr := pyTruthy_some hne
  have hlines : ∀ l ∈ h :: rows, '\n' ∉ l := by
    intro l hl
    exact pySplit_not_mem '\n' (pyStrip content) l (by rw [← stripSplitLines, hc]; exact hl)
  have hnlh : ('\n' : Char) ∉ h := hlines h (List.mem_cons_self h rows)
  have hscan := cleanupScan_eq cutoff (h :: rows)
  have hhd : isDataLine h = false := isDataLine_false_of_header hh
  have hfiltd : (h :: rows).filter isDataLine = rows.filter isDataLine := by
    simp [List.filter_cons, hhd]
  have hhdr : lastHeaderLine (h :: rows) = some h := lastHeaderLine_wf h rows hh hr
  have hrecent : (cleanupScan cutoff (h :: rows)).recent
      = (rows.filter isDataLine).filter (fun l => !rowIsOld cutoff l) := by
    rw [hscan, hfiltd]
  have hold : (cleanupScan cutoff (h :: rows)).old
      = (rows.filter isDataLine).filter (fun l => rowIsOld cutoff l) := by
    rw [hscan, hfiltd]
  have hheader : (cleanupScan cutoff (h :: rows)).header = some h := by
    rw [hscan, hhdr]
  have hrecnl : ∀ l ∈ (cleanupScan cutoff (h :: rows)).recent, '\n' ∉ l := by
    intro l hl
    rw [hrecent] at hl
    exact hlines l (List.mem_cons_of_mem _ (List.mem_of_mem_filter
      (List.mem_of_mem_filter hl)))
  have holdnl : ∀ l ∈ (cleanupScan cutoff (h :: rows)).old, '\n' ∉ l := by
    intro l hl
    rw [hold] at hl
    exact hlines l (List.mem_cons_of_mem _ (List.mem_of_mem_filter
      (List.mem_of_mem_filter hl)))
  have hsplitmain : pySplit '\n'
      (recentCsvOf (some h) (cleanupScan cutoff (h :: rows)).recent)
      = h :: (cleanupScan cutoff (h :: rows)).recent := by
    by_cases hrec : (cleanupScan cutoff (h :: rows)).recent = []
    · rw [hrec]
      simp [recentCsvOf, pySplit_single '\n' h hnlh]
    · have : recentCsvOf (some h) (cleanupScan cutoff (h :: rows)).recent
          = h ++ '\n' :: pyJoin '\n' (cleanupScan cutoff (h :: rows)).recent := by
        simp [recentCsvOf, hrec]
      rw [this, pySplit_append, pySplit_single '\n' h hnlh,
        pySplit_pyJoin '\n' _ hrec hrecnl]
      rfl
  refine ⟨?_, hsplitmain, hrecent, hold, ?_, ?_, ?_⟩
  · simp only [cleanup_old_conversions, htr, if_true]
    rw [show stripSplitLines ((some content).getD []) = h :: rows from hc, hheader]
  · simp only [cleanup_old_conversions, htr, if_true]
    rw [show stripSplitLines ((some content).getD []) = h :: rows from hc]
  · intro holdne
    have hjoin : append_to_history none (cleanupScan cutoff (h :: rows)).old
        = csvHeaderLine ++ '\n' :: ('\n' ::
            pyJoin '\n' (cleanupScan cutoff (h :: rows)).old) := by
      simp [append_to_history, pyTruthy, csvHeader]
    rw [hjoin, pySplit_append, pySplit_single '\n' csvHeaderLine (by decide)]
    have h2 : pySplit '\n'
        ('\n' :: pyJoin '\n' (cleanupScan cutoff (h :: rows)).old)
        = [] :: pySplit '\n' (pyJoin '\n' (cleanupScan cutoff (h :: rows)).old) := by
      have := pySplit_append '\n' []
        (pyJoin '\n' (cleanupScan cutoff (h :: rows)).old)
      simpa [pySplit] using this
    rw [h2, pySplit_pyJoin '\n' _ holdne holdnl]
    rfl
  · intro e hene holdne
    have hte := pyTruthy_some hene
    have hjoin : append_to_history (some e) (cleanupScan cutoff (h :: rows)).old
        = pyStrip e ++ '\n' :: pyJoin '\n' (cleanupScan cutoff (h :: rows)).old := by
      simp [append_to_history, hte]
    rw [hjoin, pySplit_append, pySplit_pyJoin '\n' _ holdne holdnl]

/-- Witness for C2: the concrete log of the C1 witness; its two old rows
(one with a tab-separated timestamp) are archived in order, the history
blob is created with a synthesized header, and the main log keeps header
plus the tie row. -/
theorem archive_writeback_witness :
    exContent ≠ []
    ∧ stripSplitLines exContent = csvHeaderLine :: [exRowOld, exRowTab, exRowTie]
    ∧ pySplit '\n' (append_to_history none
        (cleanupScan exCutoff (csvHeaderLine :: [exRowOld, exRowTab, exRowTie])).old)
      = csvHeaderLine :: [] ::
          (cleanupScan exCutoff (csvHeaderLine :: [exRowOld, exRowTab, exRowTie])).old
    ∧ pySplit '\n' (recentCsvOf (some csvHeaderLine)
        (cleanupScan exCutoff (csvHeaderLine :: [exRowOld, exRowTab, exRowTie])).recent)
      = csvHeaderLine ::
          (cleanupScan exCutoff (csvHeaderLine :: [exRowOld, exRowTab, exRowTie])).recent := by
  refine ⟨by decide, by decide, ?_, ?_⟩
  · exact (archive_writeback exCutoff exContent csvHeaderLine
      [exRowOld, exRowTab, exRowTie]
      (by decide) (by decide) (by decide) (by decide)).2.2.2.2.2.1 (by decide)
  · exact (archive_writeback exCutoff exContent csvHeaderLine
      [exRowOld, exRowTab, exRowTie]
      (by decide) (by decide) (by decide) (by decide)).2.1

/- ### C3: malformed or unparseable data lines are kept -/

theorem rowTime_eq_none_of_malformed {l : PyStr}
    (hm : (pySplit ',' l).length < 3
        ∨ strptimeYmdHms ((pySplit ',' l).getD 2 []) = none) :
    rowTime l = none := by
  rcases hm with hm | hm
  · simp only [rowTime]
    rw [if_neg]
    omega
  · simp only [rowTime]
    by_cases h3 : 3 ≤ (pySplit ',' l).length
    · rw [if_pos h3, hm]
    · rw [if_neg h3]

/-- **C3.** A data line with fewer than 3 comma-separated fields, or whose
third field does not parse with `strptime`, lands in `recent_rows`, never
in `old_rows`, and is present in the content written back to the main
key. -/
theorem malformed_rows_kept (cutoff : Timestamp) (content h l : PyStr)
    (rows : List PyStr) (hne : content ≠ [])
    (hc : stripSplitLines content = h :: rows)
    (hh : isHeaderLine h = true)
    (hr : ∀ r ∈ rows, isHeaderLine r = false)
    (hl : l ∈ rows) (hd : isDataLine l = true)
    (hm : (pySplit ',' l).length < 3
        ∨ strptimeYmdHms ((pySplit ',' l).getD 2 []) = none) :
    l ∈ (cleanupScan cutoff (h :: rows)).recent
    ∧ l ∉ (cleanupScan cutoff (h :: rows)).old
    ∧ ∃ main, (cleanup_old_conversions (some content) cutoff).mainWrite = some main
        ∧ l ∈ pySplit '\n' main := by
  have hnone := rowTime_eq_none_of_malformed hm
  have hoold : rowIsOld cutoff l = false := by simp [rowIsOld, hnone]
  obtain ⟨hmain, hsplit, hrecent, hold, _, _, _⟩ :=
    archive_writeback cutoff content h rows hne hc hh hr
  have hlrec : l ∈ (cleanupScan cutoff (h :: rows)).recent := by
    rw [hrecent]
    exact List.mem_filter.mpr ⟨List.mem_filter.mpr ⟨hl, hd⟩, by simp [hoold]⟩
  refine ⟨hlrec, ?_, ?_⟩
  · rw [hold]
    intro hcon
    have := (List.mem_filter.mp hcon).2
    simp [hoold] at this
  · exact ⟨recentCsvOf (some h) (cleanupScan cutoff (h :: rows)).recent, hmain,
      by rw [hsplit]; exact List.mem_cons_of_mem _ hlrec⟩

def exRowMalformed : PyStr := pys "g3,purchase"
def exContentMalformed : PyStr :=
  csvHeaderLine ++ '\n' :: exRowOld ++ '\n' :: exRowMalformed

/-- Witness for C3: a two-field row survives archival in the kept set and
in the written-back main log. -/
theorem malformed_rows_kept_witness :
    (pySplit ',' exRowMalformed).length < 3
    ∧ exRowMalformed ∈ (cleanupScan exCutoff
        (csvHeaderLine :: [exRowOld, exRowMalformed])).recent
    ∧ exRowMalformed ∉ (cleanupScan exCutoff
        (csvHeaderLine :: [exRowOld, exRowMalformed])).old
    ∧ ∃ main, (cleanup_old_conversions (some exContentMalformed) exCutoff).mainWrite
        = some main ∧ exRowMalformed ∈ pySplit '\n' main := by
  refine ⟨by decide, ?_⟩
  exact malformed_rows_kept exCutoff exContentMalformed csvHeaderLine
    exRowMalformed [exRowOld, exRowMalformed] (by decide) (by decide) (by decide)
    (by decide) (by decide) (by decide) (Or.inl (by decide))

/- ### C4: sequential appends preserve count and order -/

/-- A row as `add_conversion` encodes and the readers re-tokenize it: a
clean line that is recognized as a data line (not header- or
parameter-prefixed). -/
def DataRow (r : PyStr) : Prop :=
  CleanRow r ∧ isHeaderLine r = false ∧ isParamLine r = false

instance (r : PyStr) : Decidable (DataRow r) := by
  unfold DataRow; infer_instance

/-- The text a log holds after appending the given data rows to a fresh
header-only log. -/
def mainCsvText (rows : List PyStr) : PyStr :=
  match rows with
  | [] => csvHeader
  | _ :: _ => csvHeaderLine ++ '\n' :: pyJoin '\n' rows

/-- One successful append (`add_conversion` with a succeeding
`save_csv`) as a state transformer on the stored blob. -/
def addStep (st : Option PyStr) (row : PyStr) : Option PyStr :=
  some (add_conversion_content st row)

theorem isDataLine_of_DataRow {r : PyStr} (hd : DataRow r) :
    isDataLine r = true := by
  obtain ⟨⟨hne, _, hsl, hsr⟩, hh, hp⟩ := hd
  have hstrip : pyStrip r = r := pyStrip_eq_self r hsl hsr
  have hblank : isBlankLine r = false := by
    simp only [isBlankLine, hstrip]
    cases r with
    | nil => exact absurd rfl hne
    | cons a t => rfl
  simp [isDataLine, hh, hp, hblank]

theorem stripSplitLines_mainCsvText (rows : List PyStr)
    (hc : ∀ r ∈ rows, DataRow r) :
    stripSplitLines (mainCsvText rows) = csvHeaderLine :: rows := by
  cases rows with
  | nil => decide
  | cons a as =>
    have hclean : ∀ r ∈ a :: as, CleanRow r := fun r hr => (hc r hr).1
    obtain ⟨hjr, hjne⟩ := pyStripRight_pyJoin (a :: as) (by simp) hclean
    have hnl : ∀ r ∈ a :: as, ('\n' : Char) ∉ r := by
      intro r hr hmem
      exact (hclean r hr).2.1 '\n' hmem rfl
    have htail : pyStripRight ('\n' :: pyJoin '\n' (a :: as))
        = '\n' :: pyJoin '\n' (a :: as) := by
      have := pyStripRight_append ['\n'] (pyJoin '\n' (a :: as)) hjr hjne
      simpa using this
    have hstrip : pyStrip (mainCsvText (a :: as)) = mainCsvText (a :: as) := by
      show pyStrip (csvHeaderLine ++ '\n' :: pyJoin '\n' (a :: as)) = _
      exact pyStrip_head_append csvHeaderLine ('\n' :: pyJoin '\n' (a :: as))
        (by decide) (by decide) htail (by simp)
    show pySplit '\n' (pyStrip (mainCsvText (a :: as))) = _
    rw [hstrip]
    show pySplit '\n' (csvHeaderLine ++ '\n' :: pyJoin '\n' (a :: as)) = _
    rw [pySplit_append, pySplit_single '\n' csvHeaderLine (by decide),
      pySplit_pyJoin '\n' (a :: as) (by simp) hnl]
    rfl

theorem mainCsvText_ne_nil (rows : List PyStr) : mainCsvText rows ≠ [] := by
  cases rows with
  | nil => decide
  | cons a as => simp [mainCsvText]

theorem filter_isHeaderLine_wf (rows : List PyStr)
    (hc : ∀ r ∈ rows, DataRow r) :
    (csvHeaderLine :: rows).filter isHeaderLine = [csvHeaderLine] := by
  have : rows.filter isHeaderLine = [] := by
    rw [List.filter_eq_nil_iff]
    intro r hr
    simp [(hc r hr).2.1]
  simp [List.filter_cons, this]
  decide

theorem filter_isDataLine_wf (rows : List PyStr)
    (hc : ∀ r ∈ rows, DataRow r) :
    (csvHeaderLine :: rows).filter isDataLine = rows := by
  have h1 : isDataLine csvHeaderLine = false :=
    isDataLine_false_of_header (by decide)
  have h2 : rows.filter isDataLine = rows :=
    List.filter_eq_self.mpr (fun r hr => isDataLine_of_DataRow (hc r hr))
  simp [List.filter_cons, h1, h2]

theorem add_conversion_content_step (rows : List PyStr) (row : PyStr)
    (hc : ∀ r ∈ rows, DataRow r) :
    add_conversion_content (some (mainCsvText rows)) row
      = mainCsvText (rows ++ [row]) := by
  have htr := pyTruthy_some (mainCsvText_ne_nil rows)
  simp only [add_conversion_content, htr, if_true, Option.getD_some,
    stripSplitLines_mainCsvText rows hc, filter_isHeaderLine_wf rows hc,
    filter_isDataLine_wf rows hc]
  cases rows with
  | nil => simp [mainCsvText, pyJoin, csvHeader]
  | cons a as => simp [mainCsvText, pyJoin]

theorem addStep_foldl (done rows : List PyStr)
    (hdone : ∀ r ∈ done, DataRow r) (hrows : ∀ r ∈ rows, DataRow r) :
    List.foldl addStep (some (mainCsvText done)) rows
      = some (mainCsvText (done ++ rows)) := by
  induction rows generalizing done with
  | nil => simp
  | cons a as ih =>
    have hstep : addStep (some (mainCsvText done)) a
        = some (mainCsvText (done ++ [a])) := by
      simp [addStep, add_conversion_content_step done a hdone]
    have hdone' : ∀ r ∈ done ++ [a], DataRow r := by
      intro r hr
      rcases List.mem_append.mp hr with h | h
      · exact hdone r h
      · have hra : r = a := List.mem_singleton.mp h
        rw [hra]
        exact hrows a (List.mem_cons_self a as)
    have has : ∀ r ∈ as, DataRow r :=
      fun r hr => hrows r (List.mem_cons_of_mem _ hr)
    simp only [List.foldl_cons, hstep, ih (done ++ [a]) hdone' has,
      List.append_assoc, List.singleton_append]

theorem recentDataLines_mainCsvText (rows : List PyStr)
    (hc : ∀ r ∈ rows, DataRow r) :
    recentDataLines (some (mainCsvText rows)) = rows := by
  have htr := pyTruthy_some (mainCsvText_ne_nil rows)
  simp only [recentDataLines, htr, if_true, Option.getD_some,
    stripSplitLines_mainCsvText rows hc, filter_isDataLine_wf rows hc]

/-- **C4.** Starting from an absent or header-only log, folding `N`
successful appends produces, at every step `k`, a log whose data lines are
exactly the first `k` appended rows in append order (so each append
preserves the previous sequence as a prefix), and whose final record count
is `N`. -/
theorem append_monotonic (rows : List PyStr) (st0 : Option PyStr)
    (hrows : ∀ r ∈ rows, DataRow r)
    (h0 : st0 = none ∨ st0 = some csvHeader) :
    (∀ k : Nat, recentDataLines (List.foldl addStep st0 (rows.take k))
        = rows.take k)
    ∧ recentDataLines (List.foldl addStep st0 rows) = rows
    ∧ countDataLines (List.foldl addStep st0 rows) = rows.length := by
  have hbase : recentDataLines st0 = [] := by
    rcases h0 with rfl | rfl
    · rfl
    · have := recentDataLines_mainCsvText [] (by simp)
      simpa [mainCsvText] using this
  have hfold : ∀ rs : List PyStr, (∀ r ∈ rs, DataRow r) → rs ≠ [] →
      List.foldl addStep st0 rs = some (mainCsvText rs) := by
    intro rs hrs hne
    cases rs with
    | nil => exact absurd rfl hne
    | cons a as =>
      have ha : DataRow a := hrs a (List.mem_cons_self a as)
      have has : ∀ r ∈ as, DataRow r :=
        fun r hr => hrs r (List.mem_cons_of_mem _ hr)
      have ha1 : ∀ r ∈ [a], DataRow r := by
        intro r hr
        rcases List.mem_singleton.mp hr with rfl
        exact ha
      rcases h0 with rfl | rfl
      · have hfirst : addStep none a = some (mainCsvText [a]) := by
          simp [addStep, add_conversion_content, pyTruthy, createNewCsv,
            mainCsvText, csvHeader, pyJoin]
        calc List.foldl addStep none (a :: as)
            = List.foldl addStep (some (mainCsvText [a])) as := by
              rw [List.foldl_cons, hfirst]
          _ = some (mainCsvText ([a] ++ as)) := addStep_foldl [a] as ha1 has
          _ = some (mainCsvText (a :: as)) := by simp
      · have hcsv : (some csvHeader : Option PyStr) = some (mainCsvText []) := rfl
        rw [hcsv, addStep_foldl [] (a :: as) (by simp) hrs]
        simp
  have htake : ∀ k : Nat,
      recentDataLines (List.foldl addStep st0 (rows.take k)) = rows.take k := by
    intro k
    by_cases hk : rows.take k = []
    · rw [hk]
      simpa using hbase
    · have hsub : ∀ r ∈ rows.take k, DataRow r :=
        fun r hr => hrows r (List.take_subset k rows hr)
      rw [hfold (rows.take k) hsub hk]
      exact recentDataLines_mainCsvText _ hsub
  have hcount : ∀ o : Option PyStr, countDataLines o = (recentDataLines o).length := by
    intro o
    cases o with
    | none => rfl
    | some s =>
      by_cases h : pyTruthy (some s) <;> simp [countDataLines, recentDataLines, h]
  have hfull := htake rows.length
  rw [List.take_length] at hfull
  exact ⟨htake, hfull, by rw [hcount, hfull]⟩

def exRowsC4 : List PyStr :=
  [pys "gA,purchase,2026-01-01 10:00:00,,BRL,",
   pys "gB,purchase,2026-01-01 11:00:00,,BRL,"]

/-- Witness for C4: two concrete appends starting from an absent log. -/
theorem append_monotonic_witness :
    (∀ r ∈ exRowsC4, DataRow r)
    ∧ recentDataLines (List.foldl addStep none (exRowsC4.take 1)) = exRowsC4.take 1
    ∧ recentDataLines (List.foldl addStep none exRowsC4) = exRowsC4
    ∧ countDataLines (List.foldl addStep none exRowsC4) = exRowsC4.length := by
  refine ⟨by decide, ?_, ?_, ?_⟩
  · exact (append_monotonic exRowsC4 none (by decide) (Or.inl rfl)).1 1
  · exact (append_monotonic exRowsC4 none (by decide) (Or.inl rfl)).2.1
  · exact (append_monotonic exRowsC4 none (by decide) (Or.inl rfl)).2.2

/- ### C5: encode/decode round trip -/

/-- A field that survives the line codec: free of the separator and of
newlines. -/
def FieldOk (s : PyStr) : Prop := ∀ c ∈ s, c ≠ ',' ∧ c ≠ '\n'

/-- A valid record per the data model: required fields non-empty, all
fields separator- and newline-free, optional fields absent rather than
empty. -/
def ValidRecord (r : ConversionRecord) : Prop :=
  r.clickId ≠ [] ∧ r.label ≠ []
  ∧ FieldOk r.clickId ∧ FieldOk r.label ∧ FieldOk r.occurredAt
  ∧ FieldOk r.currency ∧ FieldOk (optField r.value) ∧ FieldOk (optField r.orderId)
  ∧ r.value ≠ some [] ∧ r.orderId ≠ some []

instance (r : ConversionRecord) : Decidable (ValidRecord r) := by
  unfold ValidRecord FieldOk; infer_instance

theorem encode_eq_pyJoin (r : ConversionRecord) :
    encode r = pyJoin ','
      [r.clickId, r.label, r.occurredAt, optField r.value, r.currency,
       optField r.orderId] := by
  simp [encode, pyJoin]

/-- **C5.** Encoding a valid record gives a single line with exactly 6
comma-separated fields, and decoding that line returns the record:
`decode (encode r) = some r`. -/
theorem decode_encode (r : ConversionRecord) (hv : ValidRecord r) :
    (pySplit ',' (encode r)).length = 6 ∧ decode (encode r) = some r := by
  obtain ⟨clickId, label, occurredAt, value, currency, orderId⟩ := r
  obtain ⟨h1, h2, h3, h4, h5, h6, h7, h8, h9, h10⟩ := hv
  have hnm : ∀ l ∈ [clickId, label, occurredAt, optField value, currency,
      optField orderId], (',' : Char) ∉ l := by
    intro l hl hmem
    simp only [List.mem_cons, List.mem_singleton] at hl
    rcases hl with rfl | rfl | rfl | rfl | rfl | rfl | hfalse
    · exact (h3 ',' hmem).1 rfl
    · exact (h4 ',' hmem).1 rfl
    · exact (h5 ',' hmem).1 rfl
    · exact (h7 ',' hmem).1 rfl
    · exact (h6 ',' hmem).1 rfl
    · exact (h8 ',' hmem).1 rfl
    · exact absurd hfalse (List.not_mem_nil l)
  have hsplit : pySplit ',' (encode ⟨clickId, label, occurredAt, value,
      currency, orderId⟩)
      = [clickId, label, occurredAt, optField value, currency,
         optField orderId] := by
    rw [encode_eq_pyJoin]
    exact pySplit_pyJoin ',' _ (by simp) hnm
  refine ⟨by rw [hsplit]; rfl, ?_⟩
  rw [decode, hsplit]
  simp only [List.length_cons, List.length_nil]
  rw [if_neg (by omega)]
  simp only [List.getD]
  simp only [Option.some.injEq, ConversionRecord.mk.injEq]
  refine ⟨rfl, rfl, rfl, ?_, rfl, ?_⟩
  · cases value with
    | none => simp [optField]
    | some v =>
      have hvne : v ≠ [] := by simpa using h9
      simp [optField, hvne]
  · cases orderId with
    | none => simp [optField]
    | some o =>
      have hone : o ≠ [] := by simpa using h10
      simp [optField, hone]

def exRecord : ConversionRecord :=
  { clickId := pys "gA"
    label := pys "purchase"
    occurredAt := pys "2026-01-01 10:00:00"
    value := some (pys "12.5")
    currency := pys "BRL"
    orderId := none }

/-- Witness for C5 at a concrete record with one optional field present
and one absent. -/
theorem decode_encode_witness :
    ValidRecord exRecord
    ∧ (pySplit ',' (encode exRecord)).length = 6
    ∧ decode (encode exRecord) = some exRecord := by
  refine ⟨by decide, ?_, ?_⟩
  · exact (decode_encode exRecord (by decide)).1
  · exact (decode_encode exRecord (by decide)).2

/- ### C6: what `get_csv` reports for missing keys and backend failures -/

/-- **C6 counterexample.** A transient backend failure during the read is
returned as `None` (absent), exactly like a missing key, not surfaced as a
distinct error: `get_csv` catches every exception and returns `None`. -/
theorem read_error_reported_as_absent :
    get_csv (.ioError (pys "connection reset")) = none
    ∧ BlobGetResult.ioError (pys "connection reset") ≠ BlobGetResult.noSuchKey := by
  exact ⟨rfl, by decide⟩

/-- **C6 amended.** `get_csv` returns absent if and only if the backend
reported a missing key or the read failed with any other exception; a
transient I/O failure is logged and collapsed into absent, with no error
value reaching the caller. -/
theorem read_absent_iff (r : BlobGetResult) :
    get_csv r = none ↔ (r = .noSuchKey ∨ ∃ m, r = .ioError m) := by
  cases r <;> simp [get_csv]

/- ### C7: time normalization never rejects, but degrades silently -/

/-- **C7 amended.** The normalization in `add_conversion` never rejects a
record: the append always proceeds and writes a row whose time field is the
converted, formatted input when it parses, and the formatted current
instant when it does not; the method's return value is exactly the
storage flag and therefore identical for any two time inputs — the
degradation is only printed, never returned. -/
theorem time_normalization_total (localOff : Int) (nowLocal : Timestamp)
    (existing : Option PyStr) (gclid convName : PyStr) (value : Option PyStr)
    (currency : PyStr) (orderId : Option PyStr) (input : PyStr) (saveOk : Bool) :
    add_conversion localOff nowLocal existing gclid convName value currency
        orderId input saveOk
      = (add_conversion_content existing (encode
          ⟨gclid, convName, formattedTime localOff nowLocal input, value,
           currency, orderId⟩), saveOk)
    ∧ (∀ dt : OffsetDateTime,
        fromisoformat (pyReplace input (pys "Z") (pys "+00:00")) = some dt →
          formattedTime localOff nowLocal input
            = formatYmdHms (astimezoneLocal localOff dt))
    ∧ (fromisoformat (pyReplace input (pys "Z") (pys "+00:00")) = none →
        formattedTime localOff nowLocal input = formatYmdHms nowLocal)
    ∧ (∀ input2 : PyStr,
        (add_conversion localOff nowLocal existing gclid convName value
            currency orderId input saveOk).2
          = (add_conversion localOff nowLocal existing gclid convName value
              currency orderId input2 saveOk).2) := by
  refine ⟨rfl, ?_, ?_, fun input2 => rfl⟩
  · intro dt hdt
    simp [formattedTime, hdt]
  · intro hnone
    simp [formattedTime, hnone]

def exNow : Timestamp := ⟨2026, 1, 2, 3, 4, 5⟩

/-- **C7 counterexample.** The degradation to "now" is not observable to
the caller: a parseable input and an unparseable one (falling back to the
same instant) produce identical written content and identical return
values, so no return flag reports the fallback. -/
theorem degradation_not_observable :
    fromisoformat (pyReplace (pys "not-a-time") (pys "Z") (pys "+00:00")) = none
    ∧ fromisoformat (pyReplace (pys "2026-01-02T03:04:05") (pys "Z")
        (pys "+00:00")) = some ⟨⟨2026, 1, 2, 3, 4, 5⟩, none⟩
    ∧ add_conversion (-10800) exNow (some csvHeader) (pys "gA") (pys "purchase")
        none (pys "BRL") none (pys "2026-01-02T03:04:05") true
      = add_conversion (-10800) exNow (some csvHeader) (pys "gA") (pys "purchase")
        none (pys "BRL") none (pys "not-a-time") true := by
  exact ⟨by decide, by decide, by decide⟩

/-- Witness for C7 (amended): the fallback clause discharged at the
concrete unparseable input of the counterexample's scenario. -/
theorem time_normalization_total_witness :
    fromisoformat (pyReplace (pys "not-a-time") (pys "Z") (pys "+00:00")) = none
    ∧ formattedTime (-10800) exNow (pys "not-a-time") = formatYmdHms exNow
    ∧ (∀ input2 : PyStr,
        (add_conversion (-10800) exNow (some csvHeader) (pys "gA")
            (pys "purchase") none (pys "BRL") none (pys "not-a-time") true).2
          = (add_conversion (-10800) exNow (some csvHeader) (pys "gA")
              (pys "purchase") none (pys "BRL") none input2 true).2) := by
  refine ⟨by decide, ?_, ?_⟩
  · exact (time_normalization_total (-10800) exNow (some csvHeader) (pys "gA")
      (pys "purchase") none (pys "BRL") none (pys "not-a-time") true).2.2.1
      (by decide)
  · exact (time_normalization_total (-10800) exNow (some csvHeader) (pys "gA")
      (pys "purchase") none (pys "BRL") none (pys "not-a-time") true).2.2.2

/- ### C8: `get_all_sources` does not filter the history suffix -/

theorem mem_pyInsert (x y : PyStr) (l : List PyStr) :
    y ∈ pyInsert x l ↔ y = x ∨ y ∈ l := by
  induction l with
  | nil => simp [pyInsert]
  | cons a as ih =>
    by_cases h : pyLt x a <;> simp [pyInsert, h, ih] <;> tauto

theorem mem_pySorted (l : List PyStr) (y : PyStr) :
    y ∈ pySorted l ↔ y ∈ l := by
  suffices h : ∀ acc : List PyStr,
      (y ∈ List.foldl (fun acc x => pyInsert x acc) acc l ↔ y ∈ acc ∨ y ∈ l) by
    simpa [pySorted] using h []
  induction l with
  | nil => simp
  | cons a as ih =>
    intro acc
    rw [List.foldl_cons, ih (pyInsert a acc)]
    simp [mem_pyInsert]
    tauto

/-- **C8 counterexample.** A history blob's key does appear in
`get_all_sources`: the identifier ending in `_history` is returned. -/
theorem listAccounts_returns_history_ids :
    pys "7871141994_history" ∈ get_all_sources [pys "7871141994_history.csv"]
    ∧ (pys "_history").isSuffixOf (pys "7871141994_history") = true := by
  refine ⟨?_, by decide⟩
  decide

/-- **C8 amended.** `get_all_sources` returns every key ending in `.csv`
with the extension stripped, including identifiers carrying the history
suffix; filtering of the history suffix is left to the callers, as
`cleanup_all_sources` does. -/
theorem listAccounts_membership (keys : List PyStr) (s : PyStr) :
    (s ∈ get_all_sources keys
      ↔ ∃ k ∈ keys, (pys ".csv").isSuffixOf k = true
          ∧ s = pyReplace k (pys ".csv") [])
    ∧ (∀ t ∈ cleanup_all_sources_targets keys,
        (pys "_history").isSuffixOf t = false) := by
  constructor
  · rw [get_all_sources, mem_pySorted]
    simp only [List.mem_map, List.mem_filter]
    constructor
    · rintro ⟨k, ⟨hk, hsuf⟩, heq⟩
      exact ⟨k, hk, hsuf, heq.symm⟩
    · rintro ⟨k, hk, hsuf, heq⟩
      exact ⟨k, ⟨hk, hsuf⟩, heq.symm⟩
  · intro t ht
    have := (List.mem_filter.mp ht).2
    simpa using this

/-- Witness for C8 (amended): a concrete store; the one cleanup target
carries no history suffix. -/
theorem listAccounts_membership_witness :
    pys "7871141994" ∈ cleanup_all_sources_targets [pys "7871141994.csv"]
    ∧ (pys "_history").isSuffixOf (pys "7871141994") = false := by
  refine ⟨by decide, ?_⟩
  exact (listAccounts_membership [pys "7871141994.csv"] (pys "7871141994")).2
    (pys "7871141994") (by decide)

/- ### C9: the lost-update interleaving exists -/

def exRowA : PyStr := pys "gA,purchase,2026-01-01 10:00:00,,BRL,"
def exRowB : PyStr := pys "gB,purchase,2026-01-01 11:00:00,,BRL,"

/-- **C9.** There is an interleaving of two concurrent appends to the same
account — writer B's read happening before writer A's write — after which
the persisted log contains only writer B's record: writer A's record was
persisted by its write and then silently overwritten by writer B's. -/
theorem lost_update_race :
    (runRace (some csvHeader) exRowA exRowB
        [RaceEvent.readA, RaceEvent.readB, RaceEvent.writeA,
         RaceEvent.writeB]).store
      = some (add_conversion_content (some csvHeader) exRowB)
    ∧ exRowA ∈ recentDataLines ((runRace (some csvHeader) exRowA exRowB
        [RaceEvent.readA, RaceEvent.readB, RaceEvent.writeA]).store)
    ∧ exRowB ∈ recentDataLines ((runRace (some csvHeader) exRowA exRowB
        [RaceEvent.readA, RaceEvent.readB, RaceEvent.writeA,
         RaceEvent.writeB]).store)
    ∧ exRowA ∉ recentDataLines ((runRace (some csvHeader) exRowA exRowB
        [RaceEvent.readA, RaceEvent.readB, RaceEvent.writeA,
         RaceEvent.writeB]).store)
    ∧ countDataLines ((runRace (some csvHeader) exRowA exRowB
        [RaceEvent.readA, RaceEvent.readB, RaceEvent.writeA,
         RaceEvent.writeB]).store) = 1 := by
  exact ⟨by decide, by decide, by decide, by decide, by decide⟩

/- ### C10: the synthesized history header is followed by a blank line -/

/-- The history text: header line, a blank line, then the rows. -/
def histText (rows : List PyStr) : PyStr :=
  csvHeaderLine ++ '\n' :: '\n' :: pyJoin '\n' rows

theorem append_to_history_none_eq (rows : List PyStr) :
    append_to_history none rows = histText rows := by
  simp [append_to_history, pyTruthy, histText, csvHeader]

theorem pyJoin_append (c : Char) (xs ys : List PyStr) (hx : xs ≠ [])
    (hy : ys ≠ []) :
    pyJoin c (xs ++ ys) = pyJoin c xs ++ c :: pyJoin c ys := by
  induction xs with
  | nil => exact absurd rfl hx
  | cons a as ih =>
    cases as with
    | nil =>
      cases ys with
      | nil => exact absurd rfl hy
      | cons b bs => simp [pyJoin]
    | cons a2 as2 =>
      have h1 : pyJoin c ((a :: a2 :: as2) ++ ys)
          = a ++ c :: pyJoin c ((a2 :: as2) ++ ys) := by
        simp [pyJoin]
      rw [h1, ih (by simp)]
      simp [pyJoin, List.append_assoc]

theorem histText_ne_nil (rows : List PyStr) : histText rows ≠ [] := by
  simp [histText]

theorem pyStrip_histText (rows : List PyStr) (h0 : rows ≠ [])
    (hc : ∀ r ∈ rows, CleanRow r) :
    pyStrip (histText rows) = histText rows := by
  obtain ⟨hjr, hjne⟩ := pyStripRight_pyJoin rows h0 hc
  have htail : pyStripRight ('\n' :: '\n' :: pyJoin '\n' rows)
      = '\n' :: '\n' :: pyJoin '\n' rows := by
    have := pyStripRight_append ['\n', '\n'] (pyJoin '\n' rows) hjr hjne
    simpa using this
  exact pyStrip_head_append csvHeaderLine _ (by decide) (by decide) htail
    (by simp)

theorem pySplit_histText (rows : List PyStr) (h0 : rows ≠ [])
    (hnl : ∀ r ∈ rows, ('\n' : Char) ∉ r) :
    pySplit '\n' (histText rows) = csvHeaderLine :: [] :: rows := by
  show pySplit '\n' (csvHeaderLine ++ '\n' :: ('\n' :: pyJoin '\n' rows)) = _
  rw [pySplit_append, pySplit_single '\n' csvHeaderLine (by decide)]
  have h2 : pySplit '\n' ('\n' :: pyJoin '\n' rows)
      = [] :: pySplit '\n' (pyJoin '\n' rows) := by
    have := pySplit_append '\n' [] (pyJoin '\n' rows)
    simpa [pySplit] using this
  rw [h2, pySplit_pyJoin '\n' rows h0 hnl]
  rfl

theorem append_to_history_histText (rows rows2 : List PyStr) (h0 : rows ≠ [])
    (hc : ∀ r ∈ rows, CleanRow r) (h02 : rows2 ≠ []) :
    append_to_history (some (histText rows)) rows2
      = histText (rows ++ rows2) := by
  have htr := pyTruthy_some (histText_ne_nil rows)
  simp only [append_to_history, htr, if_true, Option.getD_some]
  rw [pyStrip_histText rows h0 hc]
  show (csvHeaderLine ++ '\n' :: '\n' :: pyJoin '\n' rows)
      ++ '\n' :: pyJoin '\n' rows2 = _
  rw [histText, pyJoin_append '\n' rows rows2 h0 h02]
  simp

theorem hist_foldl (rows : List PyStr) (batches : List (List PyStr))
    (h0 : rows ≠ []) (hc : ∀ r ∈ rows, CleanRow r)
    (hb : ∀ b ∈ batches, b ≠ [] ∧ ∀ r ∈ b, CleanRow r) :
    batches.foldl (fun c rs => append_to_history (some c) rs) (histText rows)
      = histText (rows ++ batches.flatten) := by
  induction batches generalizing rows with
  | nil => simp
  | cons b bs ih =>
    obtain ⟨hbne, hbc⟩ := hb b (List.mem_cons_self b bs)
    have hc2 : ∀ r ∈ rows ++ b, CleanRow r := by
      intro r hr
      rcases List.mem_append.mp hr with h | h
      · exact hc r h
      · exact hbc r h
    have hb2 : ∀ x ∈ bs, x ≠ [] ∧ ∀ r ∈ x, CleanRow r :=
      fun x hx => hb x (List.mem_cons_of_mem _ hx)
    rw [List.foldl_cons, append_to_history_histText rows b h0 hc hbne,
      ih (rows ++ b) (by simp [h0]) hc2 hb2]
    simp [List.flatten, List.append_assoc]

/-- **C10.** The first archival write of an account's history produces the
header line, then one blank line (the synthesized header already ends in a
newline and another newline is inserted before the rows), then the archived
rows — and the blank line persists through every later archival append. -/
theorem history_blank_line (rows0 : List PyStr) (batches : List (List PyStr))
    (h0 : rows0 ≠ []) (hc0 : ∀ r ∈ rows0, CleanRow r)
    (hb : ∀ b ∈ batches, b ≠ [] ∧ ∀ r ∈ b, CleanRow r) :
    pySplit '\n' (append_to_history none rows0)
      = csvHeaderLine :: [] :: rows0
    ∧ pySplit '\n' (batches.foldl (fun c rs => append_to_history (some c) rs)
        (append_to_history none rows0))
      = csvHeaderLine :: [] :: (rows0 ++ batches.flatten) := by
  have hnl : ∀ r ∈ rows0, ('\n' : Char) ∉ r :=
    fun r hr hm => (hc0 r hr).2.1 '\n' hm rfl
  constructor
  · rw [append_to_history_none_eq, pySplit_histText rows0 h0 hnl]
  · rw [append_to_history_none_eq, hist_foldl rows0 batches h0 hc0 hb]
    apply pySplit_histText
    · simp [h0]
    · intro r hr
      rcases List.mem_append.mp hr with h | h
      · exact hnl r h
      · obtain ⟨s, hs, hrs⟩ := List.mem_flatten.mp h
        exact fun hm => ((hb s hs).2 r hrs).2.1 '\n' hm rfl

/-- Witness for C10: one archived row on the first write, then one later
append; the blank line sits between the header and the rows both times. -/
theorem history_blank_line_witness :
    ([exRowOld] ≠ [] ∧ ∀ r ∈ [exRowOld], CleanRow r)
    ∧ pySplit '\n' (append_to_history none [exRowOld])
        = csvHeaderLine :: [] :: [exRowOld]
    ∧ pySplit '\n' ([[exRowTie]].foldl
          (fun c rs => append_to_history (some c) rs)
          (append_to_history none [exRowOld]))
        = csvHeaderLine :: [] :: ([exRowOld] ++ [[exRowTie]].flatten) := by
  refine ⟨⟨by decide, by decide⟩, ?_, ?_⟩
  · exact (history_blank_line [exRowOld] [[exRowTie]] (by decide) (by decide)
      (by decide)).1
  · exact (history_blank_line [exRowOld] [[exRowTie]] (by decide) (by decide)
      (by decide)).2

end ClickFast
